import Mathlib

/-!
Verification development for the mango-feeds core: the order-book derivation
engine (`src/lib/src/orderbook_filter.rs`) and the chain-data fetcher
(`src/connector/src/chain_data_fetcher.rs`).

Modelling conventions:
* Pubkeys are natural numbers (the code only compares them for equality and
  uses their string form as map keys; `to_string` is injective on pubkeys).
* Account bytes are lists of naturals.
* UI-scaled prices and sizes (`f64` in the source) are modelled as exact
  rationals; the source's `==` on them becomes decidable equality on `ℚ`.
* The Rust `HashMap`s are modelled as association lists whose `insert`
  replaces the binding of an existing key in place.
* Fallible paths that panic in the source (`unwrap`, out-of-bounds slicing)
  are modelled in an `Option` monad where `none` marks the panic.
* External crates (the `mango_v4` book deserializer, the serum `Slab`
  iterator, the RPC client, wall-clock time) are parameters of the
  embedding, supplied as plain functions.
-/

namespace MangoFeeds

abbrev Pubkey := Nat

/-- One account's bytes and metadata, as stored by `WritableAccount::create`. -/
structure Account where
  lamports : Nat
  data : List Nat
  owner : Pubkey
  executable : Bool
  rent_epoch : Nat
deriving DecidableEq, Repr

/-- `AccountData` from `chain_data.rs`: one observed version of one account. -/
structure AccountData where
  slot : Nat
  write_version : Nat
  account : Account
deriving DecidableEq, Repr

inductive SlotStatus
  | processed
  | confirmed
  | rooted
deriving DecidableEq, Repr

/-- `SlotData` from `chain_data.rs`: one slot's topology record. -/
structure SlotData where
  slot : Nat
  parent : Option Nat
  status : SlotStatus
  chain : Nat
deriving DecidableEq, Repr

inductive OrderbookSide
  | bid
  | ask
deriving DecidableEq, Repr

/-- `OrderbookLevel` from `orderbook_filter.rs`: UI-scaled price and size. -/
@[ext]
structure OrderbookLevel where
  price : ℚ
  size : ℚ
deriving DecidableEq, Repr

structure OrderbookUpdate where
  market : Pubkey
  side : OrderbookSide
  update : List OrderbookLevel
  slot : Nat
  write_version : Nat
deriving DecidableEq, Repr

structure OrderbookCheckpoint where
  market : Pubkey
  bids : List OrderbookLevel
  asks : List OrderbookLevel
  slot : Nat
  write_version : Nat
deriving DecidableEq, Repr

inductive OrderbookFilterMessage
  | update (u : OrderbookUpdate)
  | checkpoint (c : OrderbookCheckpoint)
deriving DecidableEq, Repr

structure MarketConfig where
  name : String
  bids : Pubkey
  asks : Pubkey
  base_decimals : Nat
  quote_decimals : Nat
deriving DecidableEq, Repr

/-- `native_to_ui`: `native as f64 / (10u64.pow(decimals)) as f64`, as an
exact rational division. -/
def native_to_ui (native : Int) (decimals : Nat) : ℚ :=
  Rat.divInt native ((10 : Int) ^ decimals)

/-- Sum of the quantities of one price group:
`group.map(|(_, quantity)| quantity).fold(0, |acc, x| acc + x)`. -/
def sumQuantity (group : List (Int × Int)) : Int :=
  group.foldl (fun acc x => acc + x.2) 0

/-- The grouping step shared by both decode paths: take the price-sorted
`(price_ticks, quantity_lots)` stream, group consecutive equal prices
(`group_by` of itertools), sum quantities, and convert both fields to
UI-scaled values. -/
def bookLevels (pairs : List (Int × Int)) (quote_decimals base_decimals : Nat) :
    List OrderbookLevel :=
  (pairs.splitBy fun a b => a.1 == b.1).map fun group =>
    { price := native_to_ui ((group.head?.map Prod.fst).getD 0) quote_decimals
      size := native_to_ui (sumQuantity group) base_decimals }

/-- First loop of `publish_changes`: for every previous level with no
price-matching peer in the current book, emit `(price, 0)`. -/
def removalLevels (current_bookside previous_bookside : List OrderbookLevel) :
    List OrderbookLevel :=
  (previous_bookside.filter fun previous_order =>
      (current_bookside.find? fun level =>
        decide (previous_order.price = level.price)).isNone).map
    fun previous_order => { price := previous_order.price, size := 0 }

/-- Second loop of `publish_changes`: keep every current level that is new at
its price or whose size differs from the previous level at that price. -/
def changedLevels (current_bookside previous_bookside : List OrderbookLevel) :
    List OrderbookLevel :=
  current_bookside.filter fun current_order =>
    match previous_bookside.find? fun item =>
        decide (item.price = current_order.price) with
    | some previous_order => decide (previous_order.size ≠ current_order.size)
    | none => true

/-- The `update` vector built by `publish_changes`: removals first, then the
new or changed levels, in source order. -/
def updateDiff (current_bookside previous_bookside : List OrderbookLevel) :
    List OrderbookLevel :=
  removalLevels current_bookside previous_bookside
    ++ changedLevels current_bookside previous_bookside

/-- `publish_changes` from `orderbook_filter.rs`. Returns the messages pushed
to the outbound channel (in send order) and the number of times the update
metric was incremented. -/
def publish_changes (slot : Nat) (write_version : Nat)
    (mkt : Pubkey × MarketConfig) (side : OrderbookSide)
    (current_bookside previous_bookside : List OrderbookLevel)
    (maybe_other_bookside : Option (List OrderbookLevel)) :
    List OrderbookFilterMessage × Nat :=
  let update := updateDiff current_bookside previous_bookside
  let checkpoint_msgs : List OrderbookFilterMessage :=
    match maybe_other_bookside with
    | some other_bookside =>
      let sides :=
        match side with
        | OrderbookSide.bid => (current_bookside, other_bookside)
        | OrderbookSide.ask => (other_bookside, current_bookside)
      [OrderbookFilterMessage.checkpoint
        { slot := slot, write_version := write_version,
          bids := sides.1, asks := sides.2, market := mkt.1 }]
    | none => []
  if update.length = 0 then
    (checkpoint_msgs, 0)
  else
    (checkpoint_msgs ++ [OrderbookFilterMessage.update
        { market := mkt.1, side := side, update := update,
          slot := slot, write_version := write_version }], 1)

/-- `publish_changes_serum` from `orderbook_filter.rs`: identical to
`publish_changes` except that the update send is guarded by
`update.len() > 0` instead of an early return on `update.len() == 0`. -/
def publish_changes_serum (slot : Nat) (write_version : Nat)
    (mkt : Pubkey × MarketConfig) (side : OrderbookSide)
    (current_bookside previous_bookside : List OrderbookLevel)
    (maybe_other_bookside : Option (List OrderbookLevel)) :
    List OrderbookFilterMessage × Nat :=
  let update := updateDiff current_bookside previous_bookside
  let checkpoint_msgs : List OrderbookFilterMessage :=
    match maybe_other_bookside with
    | some other_bookside =>
      let sides :=
        match side with
        | OrderbookSide.bid => (current_bookside, other_bookside)
        | OrderbookSide.ask => (other_bookside, current_bookside)
      [OrderbookFilterMessage.checkpoint
        { slot := slot, write_version := write_version,
          bids := sides.1, asks := sides.2, market := mkt.1 }]
    | none => []
  if update.length > 0 then
    (checkpoint_msgs ++ [OrderbookFilterMessage.update
        { market := mkt.1, side := side, update := update,
          slot := slot, write_version := write_version }], 1)
  else
    (checkpoint_msgs, 0)

/-- Whether a message is an `Update`. -/
def isUpdateMsg : OrderbookFilterMessage → Bool
  | OrderbookFilterMessage.update _ => true
  | OrderbookFilterMessage.checkpoint _ => false

/-! ### Association-list model of the `HashMap`s -/

/-- Lookup in an association list (model of `HashMap::get`). -/
def alookup {α : Type} (l : List (Pubkey × α)) (k : Pubkey) : Option α :=
  (l.find? fun p => decide (p.1 = k)).map Prod.snd

/-- Insert into an association list, replacing the first binding of an
existing key in place (model of `HashMap::insert`). -/
def aupdate {α : Type} (l : List (Pubkey × α)) (k : Pubkey) (v : α) :
    List (Pubkey × α) :=
  match l with
  | [] => [(k, v)]
  | p :: rest => if p.1 = k then (k, v) :: rest else p :: aupdate rest k v

/-! ### Spec-modelled `ChainData` operations

`chain_data.rs` is not part of the provided sources; only its callers are.
The cache operations below are therefore modelled from the spec. -/

/-- Lexicographic "strictly older version" on `(slot, write_version)`. -/
def version_lt (a b : Nat × Nat) : Bool :=
  a.1 < b.1 || (a.1 = b.1 && a.2 < b.2)

/-- Modelled from the spec: `ChainData::update_account` (`chain_data.rs` is
missing from the sources). Per §4.3 it "stores a new version; does not
overwrite a later version for the same address"; the cache is modelled as
holding the resolved current snapshot per address. -/
def update_account (accounts : List (Pubkey × AccountData)) (pk : Pubkey)
    (d : AccountData) : List (Pubkey × AccountData) :=
  match alookup accounts pk with
  | some old =>
    if version_lt (d.slot, d.write_version) (old.slot, old.write_version) then
      accounts
    else
      aupdate accounts pk d
  | none => aupdate accounts pk d

/-- Modelled from the spec: `ChainData::update_slot` (`chain_data.rs` is
missing from the sources). Per §4.3 it "merges a SlotRecord"; modelled as
replacing the record of the same slot number, else appending. -/
def update_slot (slots : List SlotData) (d : SlotData) : List SlotData :=
  match slots with
  | [] => [d]
  | s :: rest => if s.slot = d.slot then d :: rest else s :: update_slot rest d

/-! ### The derivation engine (`init` in `orderbook_filter.rs`) -/

/-- The single-threaded engine's private mutable state: the private chain
cache, the two per-side level caches, and the dedup keys. -/
structure EngineState where
  chain_slots : List SlotData
  chain_accounts : List (Pubkey × AccountData)
  bookside_cache : List (Pubkey × List OrderbookLevel)
  serum_bookside_cache : List (Pubkey × List OrderbookLevel)
  last_write_versions : List (Pubkey × (Nat × Nat))
deriving DecidableEq, Repr

/-- External decode of a native `BookSide` account: models
`BookSide::try_deserialize` (an external crate call), the
`order_tree_type()` side tag, and the `iter_valid(now, 0)` walk producing
price-sorted `(price_data, quantity)` pairs. `none` models a `Result::Err`,
which the source immediately `unwrap`s — i.e. a panic. -/
def NativeDecoder := List Nat → Option (OrderbookSide × List (Int × Int))

/-- External serum `Slab` iteration: models `Slab::new(bytes).iter(ascending)`
producing `(price, quantity)` pairs (an external crate walk, assumed total). -/
def SlabDecoder := Bool → List Nat → List (Int × Int)

/-- Result of one per-side step: the new state, the emitted messages, and the
number of metric increments; `none` models a panic of the processing task. -/
abbrev StepResult := Option (EngineState × List OrderbookFilterMessage × Nat)

/-- The bids (`side = 0`) or asks pubkey of a market. -/
def sidePk (mkt : Pubkey × MarketConfig) (side : Nat) : Pubkey :=
  if side = 0 then mkt.2.bids else mkt.2.asks

/-- The pubkey of the opposite side. -/
def otherSidePk (mkt : Pubkey × MarketConfig) (side : Nat) : Pubkey :=
  if side = 0 then mkt.2.asks else mkt.2.bids

/-- One `(market, side)` step of the native (mango) rescan loop in `init`:
dedup check, decode (panicking on failure, like the source's `unwrap`),
`publish_changes` when a previous snapshot is cached, then overwrite of the
cached bookside. -/
def processMktSide (decoder : NativeDecoder) (st : EngineState)
    (mkt : Pubkey × MarketConfig) (side : Nat) : StepResult :=
  let side_pk := sidePk mkt side
  let other_side_pk := otherSidePk mkt side
  let last_write_version := (alookup st.last_write_versions side_pk).getD (0, 0)
  match alookup st.chain_accounts side_pk with
  | none => some (st, [], 0)
  | some account_info =>
    let write_version := (account_info.slot, account_info.write_version)
    if write_version = last_write_version then
      some (st, [], 0)
    else
      let st1 := { st with
        last_write_versions := aupdate st.last_write_versions side_pk write_version }
      match decoder account_info.account.data with
      | none => none
      | some (decoded_side, pairs) =>
        let bookside := bookLevels pairs mkt.2.quote_decimals mkt.2.base_decimals
        let other_bookside := alookup st1.bookside_cache other_side_pk
        let published :=
          match alookup st1.bookside_cache side_pk with
          | some old_bookside =>
            publish_changes account_info.slot account_info.write_version mkt
              decoded_side bookside old_bookside other_bookside
          | none => ([], 0)
        some ({ st1 with bookside_cache := aupdate st1.bookside_cache side_pk bookside },
          published.1, published.2)

/-- One `(market, side)` step of the serum rescan loop in `init`: dedup check,
the unguarded slicings `data[5..len - 7]` and `inner[8..]` (panicking when the
data is too short, `size_of::<OrderBookStateHeader>() = 8`), the external slab
walk, `publish_changes_serum` when a previous snapshot is cached, then
overwrite of the cached bookside. -/
def processSerumMktSide (slab : SlabDecoder) (st : EngineState)
    (mkt : Pubkey × MarketConfig) (side : Nat) : StepResult :=
  let side_pk := sidePk mkt side
  let other_side_pk := otherSidePk mkt side
  let last_write_version := (alookup st.last_write_versions side_pk).getD (0, 0)
  match alookup st.chain_accounts side_pk with
  | none => some (st, [], 0)
  | some account_info =>
    let write_version := (account_info.slot, account_info.write_version)
    if write_version = last_write_version then
      some (st, [], 0)
    else
      let st1 := { st with
        last_write_versions := aupdate st.last_write_versions side_pk write_version }
      let data := account_info.account.data
      if data.length < 12 then
        none
      else
        let inner := (data.drop 5).take (data.length - 7 - 5)
        if inner.length < 8 then
          none
        else
          let pairs := slab (side == 0) (inner.drop 8)
          let bookside := bookLevels pairs mkt.2.quote_decimals mkt.2.base_decimals
          let other_bookside := alookup st1.serum_bookside_cache other_side_pk
          let published :=
            match alookup st1.serum_bookside_cache side_pk with
            | some old_bookside =>
              publish_changes_serum account_info.slot account_info.write_version mkt
                (if side = 0 then OrderbookSide.bid else OrderbookSide.ask)
                bookside old_bookside other_bookside
            | none => ([], 0)
          some ({ st1 with
              serum_bookside_cache := aupdate st1.serum_bookside_cache side_pk bookside },
            published.1, published.2)

/-- Run a per-side step over both sides of every market in the list,
accumulating messages and metric increments. -/
def runMarkets
    (step : EngineState → (Pubkey × MarketConfig) → Nat → StepResult)
    (mkts : List (Pubkey × MarketConfig))
    (acc : EngineState × List OrderbookFilterMessage × Nat) : StepResult :=
  match mkts with
  | [] => some acc
  | mkt :: rest =>
    match step acc.1 mkt 0 with
    | none => none
    | some r0 =>
      match step r0.1 mkt 1 with
      | none => none
      | some r1 =>
        runMarkets step rest (r1.1, acc.2.1 ++ r0.2.1 ++ r1.2.1, acc.2.2 + r0.2.2 + r1.2.2)

/-- The full rescan performed after every inbound event: all mango markets
and sides, then all serum markets and sides. -/
def runScan (decoder : NativeDecoder) (slab : SlabDecoder)
    (market_configs serum_market_configs : List (Pubkey × MarketConfig))
    (st : EngineState) : StepResult := do
  let a ← runMarkets (processMktSide decoder) market_configs (st, [], 0)
  runMarkets (processSerumMktSide slab) serum_market_configs a

/-- `AccountWrite` inbound event. -/
structure AccountWrite where
  pubkey : Pubkey
  slot : Nat
  write_version : Nat
  lamports : Nat
  data : List Nat
  owner : Pubkey
  executable : Bool
  rent_epoch : Nat
deriving DecidableEq, Repr

/-- `SlotUpdate` inbound event. -/
structure SlotUpdate where
  slot : Nat
  parent : Option Nat
  status : SlotStatus
deriving DecidableEq, Repr

inductive EngineEvent
  | account (w : AccountWrite)
  | slot (s : SlotUpdate)
deriving DecidableEq, Repr

/-- The `relevant_pubkeys` set: bids and asks of every configured market,
mango and serum alike. -/
def relevant_pubkeys
    (market_configs serum_market_configs : List (Pubkey × MarketConfig)) :
    List Pubkey :=
  (market_configs ++ serum_market_configs).flatMap fun m => [m.2.bids, m.2.asks]

/-- The `AccountData` built from an `AccountWrite` by
`WritableAccount::create` in the account-write select arm. -/
def accountDataOfWrite (w : AccountWrite) : AccountData :=
  { slot := w.slot, write_version := w.write_version,
    account := { lamports := w.lamports, data := w.data, owner := w.owner,
                 executable := w.executable, rent_epoch := w.rent_epoch } }

/-- One iteration of the engine loop: receive an event, apply it to the
private cache (an `AccountWrite` whose pubkey is not relevant `continue`s the
loop, skipping the rescan entirely), then rescan every configured market and
side. -/
def processEvent (decoder : NativeDecoder) (slab : SlabDecoder)
    (market_configs serum_market_configs : List (Pubkey × MarketConfig))
    (st : EngineState) (ev : EngineEvent) : StepResult :=
  match ev with
  | EngineEvent.account w =>
    if w.pubkey ∈ relevant_pubkeys market_configs serum_market_configs then
      runScan decoder slab market_configs serum_market_configs
        { st with chain_accounts :=
            update_account st.chain_accounts w.pubkey (accountDataOfWrite w) }
    else
      some (st, [], 0)
  | EngineEvent.slot s =>
    runScan decoder slab market_configs serum_market_configs
      { st with chain_slots := (update_slot st.chain_slots
          { slot := s.slot, parent := s.parent, status := s.status, chain := 0 }) }

/-! ### The chain-data fetcher (`chain_data_fetcher.rs`) -/

/-- A cache mutation performed by the fetcher on the shared `ChainData`
(whose internals live outside the provided sources); recording the calls
keeps the embedding exactly as fine-grained as the claims need. -/
inductive CacheOp
  | updateSlot (d : SlotData)
  | updateAccount (pk : Pubkey) (d : AccountData)
deriving DecidableEq, Repr

inductive FetchErr
  | rpcError (msg : String)
  | accountNotFound
deriving DecidableEq, Repr

/-- The RPC's `get_account_with_commitment` response: a context slot and the
account, or `none` when the node reports no account. -/
structure RpcAccountResponse where
  slot : Nat
  value : Option Account
deriving DecidableEq, Repr

/-- `refresh_account_via_rpc`: given the cache's best chain slot at entry and
the RPC response, returns the result and the cache operations performed, in
order. -/
def refresh_account_via_rpc (best_chain_slot : Nat)
    (response : Except String RpcAccountResponse) (address : Pubkey) :
    Except FetchErr Nat × List CacheOp :=
  match response with
  | Except.error e => (Except.error (FetchErr.rpcError e), [])
  | Except.ok resp =>
    let slot := resp.slot
    match resp.value with
    | none => (Except.error FetchErr.accountNotFound, [])
    | some account =>
      let slot_ops :=
        if best_chain_slot < slot then
          [CacheOp.updateSlot
            { slot := slot, parent := some best_chain_slot,
              status := SlotStatus.processed, chain := 0 }]
        else []
      (Except.ok slot,
        slot_ops ++ [CacheOp.updateAccount address
          { slot := slot, write_version := 1, account := account }])

/-- The environment of the polling loop: `elapsed k` is the wall-clock time
elapsed since `start` at the `k`-th loop iteration, and `rpc k` is the result
slot of the `k`-th `refresh_account_via_rpc` call (or a propagated error). -/
structure PollEnv where
  elapsed : Nat → Nat
  rpc : Nat → Except FetchErr Nat

inductive PollErr
  | timeoutWaiting (address : Pubkey) (min_slot : Nat)
  | refreshFailed (e : FetchErr)
deriving DecidableEq, Repr

/-- The inner loop of `refresh_accounts_via_rpc_until_slot` for one address:
check the deadline, refresh, stop once the observed slot reaches `min_slot`.
Returns the result, the next iteration counter, and the log of refresh calls
made as `(address, iteration)` pairs; the fuel bounds the unrolling (`none`
when exhausted). -/
def pollOneAddress (env : PollEnv) (min_slot timeout : Nat) (address : Pubkey) :
    Nat → Nat → Option (Except PollErr Unit × Nat × List (Pubkey × Nat))
  | _, 0 => none
  | k, fuel + 1 =>
    if env.elapsed k > timeout then
      some (Except.error (PollErr.timeoutWaiting address min_slot), k, [])
    else
      match env.rpc k with
      | Except.error e => some (Except.error (PollErr.refreshFailed e), k + 1, [(address, k)])
      | Except.ok data_slot =>
        if min_slot ≤ data_slot then
          some (Except.ok (), k + 1, [(address, k)])
        else
          match pollOneAddress env min_slot timeout address (k + 1) fuel with
          | none => none
          | some (r, k2, log) => some (r, k2, (address, k) :: log)

/-- `refresh_accounts_via_rpc_until_slot`: poll each address in list order
against the shared deadline; a failure for one address aborts the batch. -/
def refresh_accounts_via_rpc_until_slot (env : PollEnv)
    (addresses : List Pubkey) (min_slot timeout fuel : Nat) (k : Nat) :
    Option (Except PollErr Unit × Nat × List (Pubkey × Nat)) :=
  match addresses with
  | [] => some (Except.ok (), k, [])
  | a :: rest =>
    match pollOneAddress env min_slot timeout a k fuel with
    | none => none
    | some (Except.error e, k2, log) => some (Except.error e, k2, log)
    | some (Except.ok _, k2, log) =>
      match refresh_accounts_via_rpc_until_slot env rest min_slot timeout fuel k2 with
      | none => none
      | some (r, k3, log2) => some (r, k3, log ++ log2)

/-- The slice `&data[..8]`, which panics (`none`) when the data is shorter
than 8 bytes. -/
def sliceFirst8 (data : List Nat) : Option (List Nat) :=
  if 8 ≤ data.length then some (data.take 8) else none

/-- `fetch_program_accounts_sync`: scan the cached current accounts, keeping
those owned by `program` whose first 8 data bytes equal the discriminator.
The short-circuit `acc_data.len() < 8 || acc_data[..8] != discriminator` is
kept: the slice is only evaluated behind the length test, and an
out-of-bounds slice would be a panic (`none`). -/
def fetch_program_accounts_sync (accounts : List (Pubkey × AccountData))
    (program : Pubkey) (discriminator : List Nat) :
    Option (List (Pubkey × Account)) :=
  match accounts with
  | [] => some []
  | (pk, d) :: rest =>
    let entry : Option (Option (Pubkey × Account)) :=
      if d.account.owner ≠ program then some none
      else if d.account.data.length < 8 then some none
      else
        match sliceFirst8 d.account.data with
        | none => none
        | some first8 =>
          some (if first8 ≠ discriminator then none else some (pk, d.account))
    match entry, fetch_program_accounts_sync rest program discriminator with
    | none, _ => none
    | some _, none => none
    | some none, some l => some l
    | some (some e), some l => some (e :: l)

/-! ### Spec-side definitions for the diff-correctness claim

These follow the spec's words ("removing entries whose matching `U` level has
size 0, upserting all others"), to be compared with the update emitted by the
source's `publish_changes`. -/

/-- Remove the level at a price. -/
def removeLevel (levels : List OrderbookLevel) (price : ℚ) :
    List OrderbookLevel :=
  levels.filter fun l => decide (l.price ≠ price)

/-- Upsert a level: replace the level at its price, or append it. -/
def upsertLevel (levels : List OrderbookLevel) (u : OrderbookLevel) :
    List OrderbookLevel :=
  if levels.any fun l => decide (l.price = u.price) then
    levels.map fun l => if l.price = u.price then u else l
  else
    levels ++ [u]

/-- Apply an emitted update to a previous book, per the spec: a level of size
0 removes its price, any other level is upserted. -/
def applyUpdate (previous update : List OrderbookLevel) :
    List OrderbookLevel :=
  update.foldl
    (fun acc u => if u.size = 0 then removeLevel acc u.price else upsertLevel acc u)
    previous

/-- The size stored at a price (via the first level with that price). -/
def sizeAt (levels : List OrderbookLevel) (price : ℚ) : Option ℚ :=
  (levels.find? fun l => decide (l.price = price)).map OrderbookLevel.size

/-- No two levels share a price. -/
def NodupPrices (levels : List OrderbookLevel) : Prop :=
  levels.Pairwise fun a b => a.price ≠ b.price

instance (ls : List OrderbookLevel) : Decidable (NodupPrices ls) := by
  unfold NodupPrices
  infer_instance

/-! ### Dedup invariants and concrete fixtures -/

/-- Per-pubkey dedup invariant: the chain cache's current version for the
pubkey, if any, equals the recorded dedup key. -/
def sideSyncedB (st : EngineState) (pk : Pubkey) : Bool :=
  match alookup st.chain_accounts pk with
  | some info => decide ((info.slot, info.write_version)
      = (alookup st.last_write_versions pk).getD (0, 0))
  | none => true

/-- The dedup invariant over every configured bids/asks pubkey. -/
def engineSyncedB (st : EngineState)
    (mkts smkts : List (Pubkey × MarketConfig)) : Bool :=
  (relevant_pubkeys mkts smkts).all (sideSyncedB st)

/-- A market fixture: market id 1, bids account 10, asks account 11, both
decimal scales 0. -/
def mktFixture : Pubkey × MarketConfig := (1, ⟨"m", 10, 11, 0, 0⟩)

/-- Engine state for the C2 counterexample: asks (the opposite side, pubkey
11) holds a cached bookside, bids (pubkey 10) holds none, and the chain cache
has a fresh bids account version. -/
def stC2 : EngineState :=
  ⟨[], [(10, ⟨5, 1, ⟨0, [0], 7, false, 0⟩⟩)], [(11, [⟨1, 1⟩])], [], []⟩

/-- Stand-in for the external `BookSide` decode, returning one bid level. -/
def decoderC2 : NativeDecoder := fun _ => some (OrderbookSide.bid, [(100, 5)])

/-- Engine state for the C2 witness: both sides cached, fresh bids version. -/
def stC2w : EngineState :=
  ⟨[], [(10, ⟨5, 1, ⟨0, [0], 7, false, 0⟩⟩)],
    [(10, [⟨1, 1⟩]), (11, [⟨2, 1⟩])], [], []⟩

/-- Stand-in for `BookSide::try_deserialize` failing on malformed bytes: the
anchor deserializer errs when the 8-byte discriminator is absent (data
shorter than 8 bytes), and the source immediately `unwrap`s that `Result`. -/
def decoderAnchor : NativeDecoder := fun data =>
  if data.length < 8 then none else some (OrderbookSide.bid, [])

/-- Slab stand-in returning no orders. -/
def slabFixture : SlabDecoder := fun _ _ => []

/-- Engine state for the C4 witness: account 10 cached at version (5, 1)
with dedup key (5, 1). -/
def stC4 : EngineState :=
  ⟨[], [(10, ⟨5, 1, ⟨0, [0], 7, false, 0⟩⟩)], [], [], [(10, (5, 1))]⟩

/-- Polling environment for the C7 witness: time advances one unit per
iteration and every RPC call returns slot `100 + k`. -/
def pollEnvW : PollEnv := ⟨fun k => k, fun k => Except.ok (100 + k)⟩

/-! ### Lemmas about `publish_changes` -/

lemma publish_changes_serum_eq (slot write_version : Nat)
    (mkt : Pubkey × MarketConfig) (side : OrderbookSide)
    (cur prev : List OrderbookLevel) (other : Option (List OrderbookLevel)) :
    publish_changes_serum slot write_version mkt side cur prev other =
      publish_changes slot write_version mkt side cur prev other := by
  unfold publish_changes publish_changes_serum
  by_cases h : (updateDiff cur prev).length = 0
  · simp [h]
  · simp [h, Nat.pos_of_ne_zero h]

/-- C5. On each `publish_changes` / `publish_changes_serum` call, an Update
message is sent iff the computed diff is non-empty; the metric is incremented
exactly once per Update sent; an empty diff sends no Update, while a
Checkpoint may still be sent on that call. -/
theorem c5_update_emission (slot write_version : Nat)
    (mkt : Pubkey × MarketConfig) (side : OrderbookSide)
    (cur prev : List OrderbookLevel) (other : Option (List OrderbookLevel)) :
    publish_changes_serum slot write_version mkt side cur prev other =
      publish_changes slot write_version mkt side cur prev other ∧
    ((publish_changes slot write_version mkt side cur prev other).1.countP isUpdateMsg
      = if updateDiff cur prev = [] then 0 else 1) ∧
    ((publish_changes slot write_version mkt side cur prev other).2
      = (publish_changes slot write_version mkt side cur prev other).1.countP isUpdateMsg) ∧
    (∀ u, OrderbookFilterMessage.update u
        ∈ (publish_changes slot write_version mkt side cur prev other).1 →
      u = { market := mkt.1, side := side, update := updateDiff cur prev,
            slot := slot, write_version := write_version }) ∧
    (updateDiff cur prev = [] → other.isSome = true →
      ∃ c, OrderbookFilterMessage.checkpoint c
        ∈ (publish_changes slot write_version mkt side cur prev other).1) := by
  refine ⟨publish_changes_serum_eq _ _ _ _ _ _ _, ?_⟩
  unfold publish_changes
  by_cases h : (updateDiff cur prev).length = 0
  · have hnil : updateDiff cur prev = [] := List.length_eq_zero.mp h
    cases other with
    | none => simp [h, hnil, isUpdateMsg]
    | some o =>
      cases side <;> simp [h, hnil, isUpdateMsg]
  · have hne : updateDiff cur prev ≠ [] := fun hh => h (by simp [hh])
    cases other with
    | none => simp [h, hne, isUpdateMsg, List.countP_cons]
    | some o =>
      cases side <;>
        simp [h, hne, isUpdateMsg, List.countP_append, List.countP_cons]

/-- Witness for C5 at concrete inputs. -/
theorem c5_update_emission_witness :
    publish_changes_serum 4 7 (1, ⟨"m", 10, 11, 0, 0⟩) OrderbookSide.bid
        [⟨2, 3⟩] [] (some [⟨5, 6⟩]) =
      publish_changes 4 7 (1, ⟨"m", 10, 11, 0, 0⟩) OrderbookSide.bid
        [⟨2, 3⟩] [] (some [⟨5, 6⟩]) ∧
    ((publish_changes 4 7 (1, ⟨"m", 10, 11, 0, 0⟩) OrderbookSide.bid
        [⟨2, 3⟩] [] (some [⟨5, 6⟩])).1.countP isUpdateMsg
      = if updateDiff [⟨2, 3⟩] [] = [] then 0 else 1) := by
  have h := c5_update_emission 4 7 (1, ⟨"m", 10, 11, 0, 0⟩) OrderbookSide.bid
    [⟨2, 3⟩] [] (some [⟨5, 6⟩])
  exact ⟨h.1, h.2.1⟩

/-! ### The fetcher claims -/

/-- C6. `refresh_account_via_rpc` on a successful RPC response returns the
response slot, inserts a Processed `SlotRecord` parented at the previous best
chain slot exactly when the response slot exceeds it, and inserts an
`AccountSnapshot` with `write_version = 1` at that slot; when the RPC reports
no account it fails `NotFound` and performs no cache insertion. -/
theorem c6_refresh_account_via_rpc (best slot : Nat) (acc : Account)
    (address : Pubkey) :
    (refresh_account_via_rpc best (Except.ok ⟨slot, some acc⟩) address).1
        = Except.ok slot ∧
    ((∃ d, CacheOp.updateSlot d
        ∈ (refresh_account_via_rpc best (Except.ok ⟨slot, some acc⟩) address).2)
      ↔ best < slot) ∧
    (∀ d, CacheOp.updateSlot d
        ∈ (refresh_account_via_rpc best (Except.ok ⟨slot, some acc⟩) address).2 →
      d = ⟨slot, some best, SlotStatus.processed, 0⟩) ∧
    CacheOp.updateAccount address ⟨slot, 1, acc⟩
        ∈ (refresh_account_via_rpc best (Except.ok ⟨slot, some acc⟩) address).2 ∧
    (∀ pk d, CacheOp.updateAccount pk d
        ∈ (refresh_account_via_rpc best (Except.ok ⟨slot, some acc⟩) address).2 →
      pk = address ∧ d = ⟨slot, 1, acc⟩) ∧
    refresh_account_via_rpc best (Except.ok ⟨slot, none⟩) address
        = (Except.error FetchErr.accountNotFound, []) := by
  unfold refresh_account_via_rpc
  by_cases hb : best < slot
  · simp [hb]
  · simp [hb]

/-- Witness for C6 at concrete inputs. -/
theorem c6_refresh_account_via_rpc_witness :
    (refresh_account_via_rpc 5
        (Except.ok ⟨9, some ⟨0, [1], 2, false, 0⟩⟩) 3).1 = Except.ok 9 ∧
    ((∃ d, CacheOp.updateSlot d
        ∈ (refresh_account_via_rpc 5
            (Except.ok ⟨9, some ⟨0, [1], 2, false, 0⟩⟩) 3).2) ↔ 5 < 9) := by
  have h := c6_refresh_account_via_rpc 5 9 ⟨0, [1], 2, false, 0⟩ 3
  exact ⟨h.1, h.2.1⟩

/-- Characterization of `fetch_program_accounts_sync`: it never panics, and
its result holds exactly the cached entries owned by `program` whose data
starts with the 8-byte discriminator. -/
lemma fetch_program_accounts_sync_spec (accounts : List (Pubkey × AccountData))
    (program : Pubkey) (disc : List Nat) :
    ∃ l, fetch_program_accounts_sync accounts program disc = some l ∧
      ∀ pk acc, ((pk, acc) ∈ l ↔ ∃ d, (pk, d) ∈ accounts ∧ acc = d.account ∧
        d.account.owner = program ∧ 8 ≤ d.account.data.length ∧
        d.account.data.take 8 = disc) := by
  induction accounts with
  | nil => exact ⟨[], rfl, by simp⟩
  | cons hd tl ih =>
    obtain ⟨l, hl, hmem⟩ := ih
    obtain ⟨pk, d⟩ := hd
    by_cases ho : d.account.owner = program
    · by_cases hlen : d.account.data.length < 8
      · refine ⟨l, ?_, ?_⟩
        · unfold fetch_program_accounts_sync
          simp [ho, hlen, hl]
        · intro pk0 acc
          rw [hmem]
          constructor
          · rintro ⟨d2, hd2, rest⟩
            exact ⟨d2, List.mem_cons_of_mem _ hd2, rest⟩
          · rintro ⟨d2, hd2, h1, h2, h3, h4⟩
            rcases List.mem_cons.mp hd2 with heq | hd2
            · exfalso
              have : d2 = d := by
                have := congrArg Prod.snd heq
                simpa using this
              rw [this] at h3
              omega
            · exact ⟨d2, hd2, h1, h2, h3, h4⟩
      · have hlen8 : 8 ≤ d.account.data.length := by omega
        by_cases hdisc : d.account.data.take 8 = disc
        · refine ⟨(pk, d.account) :: l, ?_, ?_⟩
          · unfold fetch_program_accounts_sync
            simp [ho, hlen, hl, sliceFirst8, hlen8, hdisc]
          · intro pk0 acc
            simp only [List.mem_cons]
            rw [hmem]
            constructor
            · rintro (heq | ⟨d2, hd2, rest⟩)
              · have hpk : pk0 = pk := by
                  have := congrArg Prod.fst heq
                  simpa using this
                have hacc : acc = d.account := by
                  have := congrArg Prod.snd heq
                  simpa using this
                exact ⟨d, by simp [hpk], hacc, ho, hlen8, hdisc⟩
              · exact ⟨d2, Or.inr hd2, rest⟩
            · rintro ⟨d2, hd2, h1, h2, h3, h4⟩
              rcases hd2 with heq | hd2
              · left
                have hpk : pk0 = pk := by
                  have := congrArg Prod.fst heq
                  simpa using this
                have hd2d : d2 = d := by
                  have := congrArg Prod.snd heq
                  simpa using this
                rw [hpk, h1, hd2d]
              · right
                exact ⟨d2, hd2, h1, h2, h3, h4⟩
        · refine ⟨l, ?_, ?_⟩
          · unfold fetch_program_accounts_sync
            simp [ho, hlen, hl, sliceFirst8, hlen8, hdisc]
          · intro pk0 acc
            rw [hmem]
            constructor
            · rintro ⟨d2, hd2, rest⟩
              exact ⟨d2, List.mem_cons_of_mem _ hd2, rest⟩
            · rintro ⟨d2, hd2, h1, h2, h3, h4⟩
              rcases List.mem_cons.mp hd2 with heq | hd2
              · exfalso
                have : d2 = d := by
                  have := congrArg Prod.snd heq
                  simpa using this
                rw [this] at h4
                exact hdisc h4
              · exact ⟨d2, hd2, h1, h2, h3, h4⟩
    · refine ⟨l, ?_, ?_⟩
      · unfold fetch_program_accounts_sync
        simp [ho, hl]
      · intro pk0 acc
        rw [hmem]
        constructor
        · rintro ⟨d2, hd2, rest⟩
          exact ⟨d2, List.mem_cons_of_mem _ hd2, rest⟩
        · rintro ⟨d2, hd2, h1, h2, h3, h4⟩
          rcases List.mem_cons.mp hd2 with heq | hd2
          · exfalso
            have : d2 = d := by
              have := congrArg Prod.snd heq
              simpa using this
            rw [this] at h2
            exact ho h2
          · exact ⟨d2, hd2, h1, h2, h3, h4⟩

/-- C8. `fetch_program_accounts_sync` returns exactly the cached current
accounts whose owner is `program` and whose first 8 data bytes equal the
discriminator, and returns an empty list (not an error) when none match. -/
theorem c8_program_scan_filter (accounts : List (Pubkey × AccountData))
    (program : Pubkey) (disc : List Nat) :
    ∃ l, fetch_program_accounts_sync accounts program disc = some l ∧
      (∀ pk acc, ((pk, acc) ∈ l ↔ ∃ d, (pk, d) ∈ accounts ∧ acc = d.account ∧
        d.account.owner = program ∧ 8 ≤ d.account.data.length ∧
        d.account.data.take 8 = disc)) ∧
      ((∀ pk d, (pk, d) ∈ accounts →
          ¬(d.account.owner = program ∧ 8 ≤ d.account.data.length ∧
            d.account.data.take 8 = disc)) → l = []) := by
  obtain ⟨l, hl, hmem⟩ := fetch_program_accounts_sync_spec accounts program disc
  refine ⟨l, hl, hmem, fun hnone => ?_⟩
  rw [List.eq_nil_iff_forall_not_mem]
  rintro ⟨pk, acc⟩ hin
  obtain ⟨d, hd, h1, h2, h3, h4⟩ := (hmem pk acc).mp hin
  exact hnone pk d hd ⟨h2, h3, h4⟩

/-- Witness for C8 at a concrete cache. -/
theorem c8_program_scan_filter_witness :
    ∃ l, fetch_program_accounts_sync
        [(4, ⟨1, 2, ⟨0, [9, 9, 9, 9, 9, 9, 9, 9, 5], 7, false, 0⟩⟩),
         (6, ⟨1, 2, ⟨0, [1], 7, false, 0⟩⟩)] 7 [9, 9, 9, 9, 9, 9, 9, 9] = some l ∧
      (∀ pk acc, ((pk, acc) ∈ l ↔ ∃ d,
        (pk, d) ∈ [(4, (⟨1, 2, ⟨0, [9, 9, 9, 9, 9, 9, 9, 9, 5], 7, false, 0⟩⟩ : AccountData)),
                    (6, ⟨1, 2, ⟨0, [1], 7, false, 0⟩⟩)] ∧ acc = d.account ∧
        d.account.owner = 7 ∧ 8 ≤ d.account.data.length ∧
        d.account.data.take 8 = [9, 9, 9, 9, 9, 9, 9, 9])) ∧
      ((∀ pk d, (pk, d) ∈ [(4, (⟨1, 2, ⟨0, [9, 9, 9, 9, 9, 9, 9, 9, 5], 7, false, 0⟩⟩ : AccountData)),
                    (6, ⟨1, 2, ⟨0, [1], 7, false, 0⟩⟩)] →
          ¬(d.account.owner = 7 ∧ 8 ≤ d.account.data.length ∧
            d.account.data.take 8 = [9, 9, 9, 9, 9, 9, 9, 9])) → l = []) :=
  c8_program_scan_filter _ 7 _

/-- C10. Cached accounts with fewer than 8 data bytes are excluded from
`fetch_program_accounts_sync` without a panic: the scan always returns a
value, every returned account has at least 8 data bytes, and a short-data
cache entry never appears in the result. -/
theorem c10_short_data_filtered (accounts : List (Pubkey × AccountData))
    (program : Pubkey) (disc : List Nat) :
    ∃ l, fetch_program_accounts_sync accounts program disc = some l ∧
      (∀ pk acc, (pk, acc) ∈ l → 8 ≤ acc.data.length) ∧
      (∀ pk d, (pk, d) ∈ accounts → d.account.data.length < 8 →
        (pk, d.account) ∉ l) := by
  obtain ⟨l, hl, hmem⟩ := fetch_program_accounts_sync_spec accounts program disc
  refine ⟨l, hl, ?_, ?_⟩
  · intro pk acc hin
    obtain ⟨d, _, h1, _, h3, _⟩ := (hmem pk acc).mp hin
    rw [h1]
    exact h3
  · intro pk d _ hshort hin
    obtain ⟨d2, _, h1, _, h3, _⟩ := (hmem pk d.account).mp hin
    rw [h1] at hshort
    omega

/-- Witness for C10 at a concrete cache holding a short-data account. -/
theorem c10_short_data_filtered_witness :
    ∃ l, fetch_program_accounts_sync [(6, ⟨1, 2, ⟨0, [1, 2], 7, false, 0⟩⟩)]
        7 [1, 2, 3, 4, 5, 6, 7, 8] = some l ∧
      (∀ pk acc, (pk, acc) ∈ l → 8 ≤ acc.data.length) ∧
      (∀ pk d, (pk, d) ∈ [(6, (⟨1, 2, ⟨0, [1, 2], 7, false, 0⟩⟩ : AccountData))] →
        d.account.data.length < 8 → (pk, d.account) ∉ l) :=
  c10_short_data_filtered _ 7 _

/-- C9. An `AccountWrite` whose pubkey is not a configured bids/asks address
is a complete no-op: the engine `continue`s before touching the private chain
cache, either bookside cache, or the dedup keys, and emits nothing. -/
theorem c9_irrelevant_write_noop (decoder : NativeDecoder) (slab : SlabDecoder)
    (mkts smkts : List (Pubkey × MarketConfig)) (st : EngineState)
    (w : AccountWrite) (h : w.pubkey ∉ relevant_pubkeys mkts smkts) :
    processEvent decoder slab mkts smkts st (EngineEvent.account w)
      = some (st, [], 0) := by
  simp [processEvent, h]

/-- Witness for C9 at concrete inputs. -/
theorem c9_irrelevant_write_noop_witness :
    (99 ∉ relevant_pubkeys [(1, ⟨"m", 10, 11, 0, 0⟩)] [(2, ⟨"s", 20, 21, 0, 0⟩)]) ∧
    processEvent (fun _ => none) (fun _ _ => [])
        [(1, ⟨"m", 10, 11, 0, 0⟩)] [(2, ⟨"s", 20, 21, 0, 0⟩)]
        ⟨[], [], [], [], []⟩
        (EngineEvent.account ⟨99, 5, 1, 0, [], 0, false, 0⟩)
      = some (⟨[], [], [], [], []⟩, [], 0) :=
  ⟨by decide, c9_irrelevant_write_noop _ _ _ _ _ _ (by decide)⟩

/-! ### Checkpoint gating, decode panics and dedup -/

/-- Checkpoint messages of one `publish_changes` call: one is sent iff the
other bookside is cached, and it carries the call's slot, write version,
market, the current bookside on the decoded side and the cached other
bookside opposite. -/
lemma publish_changes_checkpoints (slot write_version : Nat)
    (mkt : Pubkey × MarketConfig) (side : OrderbookSide)
    (cur prev : List OrderbookLevel) (other : Option (List OrderbookLevel)) :
    ((∃ c, OrderbookFilterMessage.checkpoint c
        ∈ (publish_changes slot write_version mkt side cur prev other).1)
      ↔ other.isSome = true) ∧
    (∀ c, OrderbookFilterMessage.checkpoint c
        ∈ (publish_changes slot write_version mkt side cur prev other).1 →
      ∃ o, other = some o ∧ c.slot = slot ∧ c.write_version = write_version ∧
        c.market = mkt.1 ∧
        ((side = OrderbookSide.bid ∧ c.bids = cur ∧ c.asks = o) ∨
         (side = OrderbookSide.ask ∧ c.bids = o ∧ c.asks = cur))) := by
  unfold publish_changes
  by_cases h : (updateDiff cur prev).length = 0
  · cases other with
    | none => simp [h]
    | some o =>
      cases side <;> simp [h]
  · cases other with
    | none => simp [h]
    | some o =>
      cases side <;> simp [h]

/-- C2 counterexample. In `stC2` the opposite side (asks) has a materialized
snapshot before the pass and the bids book is decoded on this pass, yet the
pass emits no message at all — in particular no Checkpoint — because
`publish_changes` is only reached when the current side already has a cached
previous bookside. -/
theorem c2_checkpoint_gating_counterexample :
    (alookup stC2.bookside_cache (otherSidePk mktFixture 0)).isSome = true ∧
    alookup stC2.bookside_cache (sidePk mktFixture 0) = none ∧
    (processMktSide decoderC2 stC2 mktFixture 0).map (fun r => r.2.1)
      = some [] := by
  decide

/-- C2 as amended. On a pass that decodes a side's book (account found, dedup
key stale, decode successful), a Checkpoint is emitted iff the opposite side
has a cached bookside AND the current side itself already has a cached
previous bookside; when emitted it carries the just-computed levels on the
decoded side, the cached opposite levels, and this side's slot and
write_version. -/
theorem c2_checkpoint_gating (decoder : NativeDecoder) (st : EngineState)
    (mkt : Pubkey × MarketConfig) (side : Nat) (info : AccountData)
    (decoded_side : OrderbookSide) (pairs : List (Int × Int))
    (hfound : alookup st.chain_accounts (sidePk mkt side) = some info)
    (hfresh : (info.slot, info.write_version)
      ≠ (alookup st.last_write_versions (sidePk mkt side)).getD (0, 0))
    (hdecode : decoder info.account.data = some (decoded_side, pairs)) :
    ∃ st2 msgs n, processMktSide decoder st mkt side = some (st2, msgs, n) ∧
      ((∃ c, OrderbookFilterMessage.checkpoint c ∈ msgs) ↔
        ((alookup st.bookside_cache (otherSidePk mkt side)).isSome = true ∧
         (alookup st.bookside_cache (sidePk mkt side)).isSome = true)) ∧
      (∀ c, OrderbookFilterMessage.checkpoint c ∈ msgs →
        c.slot = info.slot ∧ c.write_version = info.write_version ∧
        c.market = mkt.1 ∧
        ∃ other, alookup st.bookside_cache (otherSidePk mkt side) = some other ∧
          ((decoded_side = OrderbookSide.bid ∧
            c.bids = bookLevels pairs mkt.2.quote_decimals mkt.2.base_decimals ∧
            c.asks = other) ∨
           (decoded_side = OrderbookSide.ask ∧
            c.bids = other ∧
            c.asks = bookLevels pairs mkt.2.quote_decimals mkt.2.base_decimals))) := by
  simp only [processMktSide, hfound]
  rw [if_neg hfresh]
  simp only [hdecode]
  rcases hold : alookup st.bookside_cache (sidePk mkt side) with _ | old
  · refine ⟨_, _, _, rfl, ?_, ?_⟩
    · simp [hold]
    · simp
  · obtain ⟨hiff, hcontent⟩ := publish_changes_checkpoints info.slot
      info.write_version mkt decoded_side
      (bookLevels pairs mkt.2.quote_decimals mkt.2.base_decimals) old
      (alookup st.bookside_cache (otherSidePk mkt side))
    refine ⟨_, _, _, rfl, ?_, ?_⟩
    · rw [hiff]
      simp
    · intro c hc
      obtain ⟨o, ho, h1, h2, h3, h4⟩ := hcontent c hc
      exact ⟨h1, h2, h3, o, ho, by tauto⟩

/-- Witness for the amended C2 at concrete inputs. -/
theorem c2_checkpoint_gating_witness :
    ∃ st2 msgs n, processMktSide decoderC2 stC2w mktFixture 0
        = some (st2, msgs, n) ∧
      ((∃ c, OrderbookFilterMessage.checkpoint c ∈ msgs) ↔
        ((alookup stC2w.bookside_cache (otherSidePk mktFixture 0)).isSome = true ∧
         (alookup stC2w.bookside_cache (sidePk mktFixture 0)).isSome = true)) ∧
      (∀ c, OrderbookFilterMessage.checkpoint c ∈ msgs →
        c.slot = (5 : Nat) ∧ c.write_version = (1 : Nat) ∧
        c.market = mktFixture.1 ∧
        ∃ other, alookup stC2w.bookside_cache (otherSidePk mktFixture 0)
            = some other ∧
          ((OrderbookSide.bid = OrderbookSide.bid ∧
            c.bids = bookLevels [(100, 5)] mktFixture.2.quote_decimals
              mktFixture.2.base_decimals ∧ c.asks = other) ∨
           (OrderbookSide.bid = OrderbookSide.ask ∧ c.bids = other ∧
            c.asks = bookLevels [(100, 5)] mktFixture.2.quote_decimals
              mktFixture.2.base_decimals))) :=
  c2_checkpoint_gating decoderC2 stC2w mktFixture 0 ⟨5, 1, ⟨0, [0], 7, false, 0⟩⟩
    OrderbookSide.bid [(100, 5)] (by decide) (by decide) (by decide)

/-- C3. A decode failure does NOT fail soft: processing an `AccountWrite`
for a configured bids address whose bytes fail `BookSide::try_deserialize`
panics the whole processing task (the source `unwrap`s the decode `Result`),
instead of skipping that (market, side) and continuing. -/
theorem c3_decode_failure_panics :
    processEvent decoderAnchor slabFixture [mktFixture] []
        ⟨[], [], [], [], []⟩
        (EngineEvent.account ⟨10, 5, 1, 0, [], 0, false, 0⟩)
      = none := by
  decide

lemma processMktSide_skip (decoder : NativeDecoder) (st : EngineState)
    (mkt : Pubkey × MarketConfig) (side : Nat)
    (h : sideSyncedB st (sidePk mkt side) = true) :
    processMktSide decoder st mkt side = some (st, [], 0) := by
  unfold sideSyncedB at h
  rcases hl : alookup st.chain_accounts (sidePk mkt side) with _ | info
  · simp [processMktSide, hl]
  · rw [hl] at h
    simp only [decide_eq_true_eq] at h
    simp [processMktSide, hl, h]

lemma processSerumMktSide_skip (slab : SlabDecoder) (st : EngineState)
    (mkt : Pubkey × MarketConfig) (side : Nat)
    (h : sideSyncedB st (sidePk mkt side) = true) :
    processSerumMktSide slab st mkt side = some (st, [], 0) := by
  unfold sideSyncedB at h
  rcases hl : alookup st.chain_accounts (sidePk mkt side) with _ | info
  · simp [processSerumMktSide, hl]
  · rw [hl] at h
    simp only [decide_eq_true_eq] at h
    simp [processSerumMktSide, hl, h]

lemma runMarkets_skip
    (step : EngineState → (Pubkey × MarketConfig) → Nat → StepResult)
    (mkts : List (Pubkey × MarketConfig)) (st : EngineState)
    (msgs : List OrderbookFilterMessage) (n : Nat)
    (h : ∀ mkt ∈ mkts, step st mkt 0 = some (st, [], 0)
      ∧ step st mkt 1 = some (st, [], 0)) :
    runMarkets step mkts (st, msgs, n) = some (st, msgs, n) := by
  induction mkts with
  | nil => rfl
  | cons mkt rest ih =>
    obtain ⟨h0, h1⟩ := h mkt (List.mem_cons_self _ _)
    unfold runMarkets
    simp only [h0, h1]
    simpa using ih fun m hm => h m (List.mem_cons_of_mem _ hm)

lemma runScan_skip (decoder : NativeDecoder) (slab : SlabDecoder)
    (mkts smkts : List (Pubkey × MarketConfig)) (st : EngineState)
    (h : engineSyncedB st mkts smkts = true) :
    runScan decoder slab mkts smkts st = some (st, [], 0) := by
  unfold engineSyncedB at h
  rw [List.all_eq_true] at h
  have hside : ∀ mkt ∈ mkts ++ smkts, ∀ side : Nat,
      sideSyncedB st (sidePk mkt side) = true := by
    intro mkt hm side
    apply h
    unfold relevant_pubkeys
    rw [List.mem_flatMap]
    refine ⟨mkt, hm, ?_⟩
    unfold sidePk
    by_cases hs : side = 0 <;> simp [hs]
  unfold runScan
  rw [runMarkets_skip _ _ _ _ _ fun mkt hm =>
    ⟨processMktSide_skip decoder st mkt 0
        (hside mkt (List.mem_append_left _ hm) 0),
      processMktSide_skip decoder st mkt 1
        (hside mkt (List.mem_append_left _ hm) 1)⟩]
  exact runMarkets_skip _ _ _ _ _ fun mkt hm =>
    ⟨processSerumMktSide_skip slab st mkt 0
        (hside mkt (List.mem_append_right _ hm) 0),
      processSerumMktSide_skip slab st mkt 1
        (hside mkt (List.mem_append_right _ hm) 1)⟩

lemma aupdate_lookup_self {α : Type} (l : List (Pubkey × α)) (k : Pubkey)
    (v : α) (h : alookup l k = some v) : aupdate l k v = l := by
  induction l with
  | nil => simp [alookup] at h
  | cons p rest ih =>
    by_cases hp : p.1 = k
    · have : p.2 = v := by
        simpa [alookup, List.find?_cons, hp] using h
      unfold aupdate
      rw [if_pos hp, ← hp, ← this]
    · have hrest : alookup rest k = some v := by
        simpa [alookup, List.find?_cons, hp] using h
      unfold aupdate
      rw [if_neg hp, ih hrest]

lemma update_account_self (chain : List (Pubkey × AccountData)) (pk : Pubkey)
    (ad : AccountData) (h : alookup chain pk = some ad) :
    update_account chain pk ad = chain := by
  have hv : version_lt (ad.slot, ad.write_version) (ad.slot, ad.write_version)
      = false := by
    simp [version_lt]
  simp only [update_account, h, hv, Bool.false_eq_true, if_false]
  exact aupdate_lookup_self chain pk ad h

/-- C4. Dedup idempotence: (a) a native-market side whose current cache
version equals its recorded dedup key is skipped entirely (for every possible
decoder — so nothing is decoded — with no state change and no emission);
(b) likewise for a serum-market side; (c) replaying an `AccountWrite` whose
exact `(slot, write_version)` data is already the cache's current version,
against a state where every configured side satisfies the dedup invariant,
produces no further Update or Checkpoint and leaves the state unchanged. -/
theorem c4_dedup_idempotence :
    (∀ (decoder : NativeDecoder) (st : EngineState)
        (mkt : Pubkey × MarketConfig) (side : Nat),
      sideSyncedB st (sidePk mkt side) = true →
      processMktSide decoder st mkt side = some (st, [], 0)) ∧
    (∀ (slab : SlabDecoder) (st : EngineState)
        (mkt : Pubkey × MarketConfig) (side : Nat),
      sideSyncedB st (sidePk mkt side) = true →
      processSerumMktSide slab st mkt side = some (st, [], 0)) ∧
    (∀ (decoder : NativeDecoder) (slab : SlabDecoder)
        (mkts smkts : List (Pubkey × MarketConfig)) (st : EngineState)
        (w : AccountWrite),
      engineSyncedB st mkts smkts = true →
      alookup st.chain_accounts w.pubkey = some (accountDataOfWrite w) →
      processEvent decoder slab mkts smkts st (EngineEvent.account w)
        = some (st, [], 0)) := by
  refine ⟨processMktSide_skip, processSerumMktSide_skip, ?_⟩
  intro decoder slab mkts smkts st w hsync hcache
  simp only [processEvent]
  by_cases hrel : w.pubkey ∈ relevant_pubkeys mkts smkts
  · rw [if_pos hrel, update_account_self _ _ _ hcache]
    exact runScan_skip decoder slab mkts smkts st hsync
  · rw [if_neg hrel]

/-- Witness for C4 at concrete inputs: the pass skips and a replayed write
produces no output. -/
theorem c4_dedup_idempotence_witness :
    processMktSide decoderAnchor stC4 mktFixture 0 = some (stC4, [], 0) ∧
    processSerumMktSide slabFixture stC4 mktFixture 0 = some (stC4, [], 0) ∧
    processEvent decoderAnchor slabFixture [mktFixture] [] stC4
        (EngineEvent.account ⟨10, 5, 1, 0, [0], 7, false, 0⟩)
      = some (stC4, [], 0) :=
  ⟨c4_dedup_idempotence.1 decoderAnchor stC4 mktFixture 0 (by decide),
   c4_dedup_idempotence.2.1 slabFixture stC4 mktFixture 0 (by decide),
   c4_dedup_idempotence.2.2 decoderAnchor slabFixture [mktFixture] [] stC4
     ⟨10, 5, 1, 0, [0], 7, false, 0⟩ (by decide) (by decide)⟩

/-! ### Diff correctness (C1) -/

lemma find?_congrP {α : Type} (l : List α) (p q : α → Bool)
    (h : ∀ a, p a = q a) : l.find? p = l.find? q := by
  induction l with
  | nil => rfl
  | cons x rest ih => simp [List.find?_cons, h x, ih]

lemma sizeAt_cons (x : OrderbookLevel) (rest : List OrderbookLevel) (pr : ℚ) :
    sizeAt (x :: rest) pr
      = if x.price = pr then some x.size else sizeAt rest pr := by
  unfold sizeAt
  by_cases h : x.price = pr <;> simp [List.find?_cons, h]

lemma sizeAt_removeLevel (ls : List OrderbookLevel) (pr0 pr : ℚ) :
    sizeAt (removeLevel ls pr0) pr = if pr = pr0 then none else sizeAt ls pr := by
  induction ls with
  | nil =>
    by_cases h : pr = pr0 <;> simp [removeLevel, sizeAt, h]
  | cons x rest ih =>
    by_cases hx : x.price = pr0
    · have hfil : removeLevel (x :: rest) pr0 = removeLevel rest pr0 := by
        simp [removeLevel, List.filter_cons, hx]
      rw [hfil, ih]
      by_cases hp : pr = pr0
      · simp [hp]
      · have hxp : x.price ≠ pr := by
          rw [hx]
          exact fun hh => hp hh.symm
        simp [hp, sizeAt_cons, hxp]
    · have hfil : removeLevel (x :: rest) pr0 = x :: removeLevel rest pr0 := by
        simp [removeLevel, List.filter_cons, hx]
      rw [hfil, sizeAt_cons, ih, sizeAt_cons]
      by_cases hxp : x.price = pr
      · have hp : pr ≠ pr0 := by
          rw [← hxp]
          exact hx
        simp [hxp, hp]
      · simp [hxp]

lemma sizeAt_map_replace (ls : List OrderbookLevel) (u : OrderbookLevel)
    (pr : ℚ) :
    sizeAt (ls.map fun l => if l.price = u.price then u else l) pr =
      if pr = u.price then
        (if ls.any (fun l => decide (l.price = u.price)) then some u.size else none)
      else sizeAt ls pr := by
  induction ls with
  | nil => by_cases h : pr = u.price <;> simp [sizeAt, h]
  | cons x rest ih =>
    by_cases hx : x.price = u.price
    · simp only [List.map_cons, if_pos hx]
      rw [sizeAt_cons]
      by_cases hp : pr = u.price
      · simp [hp, List.any_cons, hx]
      · have hupr : u.price ≠ pr := fun hh => hp hh.symm
        have hxpr : x.price ≠ pr := by
          rw [hx]
          exact hupr
        rw [if_neg hupr, ih, if_neg hp, sizeAt_cons, if_neg hxpr, if_neg hp]
    · simp only [List.map_cons, if_neg hx]
      rw [sizeAt_cons, ih]
      by_cases hxp : x.price = pr
      · have hp : pr ≠ u.price := by
          rw [← hxp]
          exact hx
        rw [if_pos hxp, if_neg hp, sizeAt_cons, if_pos hxp]
      · rw [if_neg hxp]
        by_cases hp : pr = u.price
        · rw [if_pos hp, if_pos hp]
          simp [List.any_cons, hx]
        · rw [if_neg hp, if_neg hp, sizeAt_cons, if_neg hxp]

lemma sizeAt_append_single (ls : List OrderbookLevel) (u : OrderbookLevel)
    (pr : ℚ) :
    sizeAt (ls ++ [u]) pr
      = (sizeAt ls pr).or (if pr = u.price then some u.size else none) := by
  induction ls with
  | nil =>
    by_cases h : u.price = pr
    · simp [sizeAt_cons, sizeAt, h]
    · have hp : pr ≠ u.price := fun hh => h hh.symm
      simp [sizeAt_cons, sizeAt, h, hp]
  | cons x rest ih =>
    rw [List.cons_append, sizeAt_cons, sizeAt_cons, ih]
    by_cases hxp : x.price = pr <;> simp [hxp]

lemma sizeAt_none_of_any_false (ls : List OrderbookLevel) (q : ℚ)
    (h : ls.any (fun l => decide (l.price = q)) = false) :
    sizeAt ls q = none := by
  unfold sizeAt
  rw [List.find?_eq_none.mpr]
  · rfl
  · intro x hx
    have := List.any_eq_false.mp h x hx
    simpa using this

lemma sizeAt_upsertLevel (ls : List OrderbookLevel) (u : OrderbookLevel)
    (pr : ℚ) :
    sizeAt (upsertLevel ls u) pr
      = if pr = u.price then some u.size else sizeAt ls pr := by
  unfold upsertLevel
  by_cases hany : ls.any (fun l => decide (l.price = u.price)) = true
  · rw [if_pos hany, sizeAt_map_replace, hany]
    by_cases hp : pr = u.price <;> simp [hp]
  · have hf : ls.any (fun l => decide (l.price = u.price)) = false :=
      Bool.eq_false_iff.mpr hany
    rw [if_neg hany, sizeAt_append_single]
    by_cases hp : pr = u.price
    · rw [if_pos hp, if_pos hp]
      have : sizeAt ls pr = none := hp ▸ sizeAt_none_of_any_false ls u.price hf
      rw [this]
      rfl
    · rw [if_neg hp, if_neg hp]
      exact Option.or_none

lemma sizeAt_applyUpdate (U : List OrderbookLevel) (P : List OrderbookLevel)
    (pr : ℚ) (hU : NodupPrices U) :
    sizeAt (applyUpdate P U) pr =
      match U.find? fun u => decide (u.price = pr) with
      | some u => if u.size = 0 then none else some u.size
      | none => sizeAt P pr := by
  induction U generalizing P with
  | nil => rfl
  | cons u rest ih =>
    have hrest : NodupPrices rest := (List.pairwise_cons.mp hU).2
    have hhead : ∀ v ∈ rest, u.price ≠ v.price := (List.pairwise_cons.mp hU).1
    have hstep : applyUpdate P (u :: rest)
        = applyUpdate (if u.size = 0 then removeLevel P u.price
            else upsertLevel P u) rest := rfl
    rw [hstep, ih _ hrest, List.find?_cons]
    by_cases hpr : u.price = pr
    · have hnone : rest.find? (fun v => decide (v.price = pr)) = none := by
        rw [List.find?_eq_none]
        intro x hx
        simp only [decide_eq_true_eq]
        intro hh
        exact hhead x hx (hpr.trans hh.symm)
      rw [hnone]
      have hd : decide (u.price = pr) = true := decide_eq_true hpr
      simp only [hd]
      by_cases hz : u.size = 0
      · rw [if_pos hz, if_pos hz, sizeAt_removeLevel, if_pos hpr.symm]
      · rw [if_neg hz, if_neg hz, sizeAt_upsertLevel, if_pos hpr.symm]
    · have hd : decide (u.price = pr) = false := decide_eq_false hpr
      simp only [hd]
      cases hfind : rest.find? (fun v => decide (v.price = pr)) with
      | some v => rfl
      | none =>
        have hps : pr ≠ u.price := fun hh => hpr hh.symm
        by_cases hz : u.size = 0
        · rw [if_pos hz, sizeAt_removeLevel, if_neg hps]
        · rw [if_neg hz, sizeAt_upsertLevel, if_neg hps]

lemma removalLevels_find (C P : List OrderbookLevel) (pr : ℚ) :
    (removalLevels C P).find? (fun u => decide (u.price = pr)) =
      match C.find? (fun l => decide (l.price = pr)),
          P.find? (fun l => decide (l.price = pr)) with
      | none, some _ => some { price := pr, size := 0 }
      | _, _ => none := by
  induction P with
  | nil =>
    cases hC : C.find? (fun l => decide (l.price = pr)) <;>
      simp [removalLevels]
  | cons p rest ih =>
    by_cases hpp : p.price = pr
    · have hflip : (C.find? fun level => decide (p.price = level.price))
          = C.find? fun l => decide (l.price = pr) := by
        apply find?_congrP
        intro a
        rw [decide_eq_decide]
        rw [hpp]
        exact eq_comm
      cases hC : C.find? (fun l => decide (l.price = pr)) with
      | none =>
        have hkeep : removalLevels C (p :: rest)
            = ⟨p.price, 0⟩ :: removalLevels C rest := by
          simp [removalLevels, List.filter_cons, hflip, hC]
        rw [hkeep, List.find?_cons]
        have hd : decide ((⟨p.price, 0⟩ : OrderbookLevel).price = pr) = true :=
          decide_eq_true hpp
        simp only [hd]
        rw [List.find?_cons]
        simp [hpp, hC]
      | some c =>
        have hdrop : removalLevels C (p :: rest) = removalLevels C rest := by
          simp [removalLevels, List.filter_cons, hflip, hC]
        rw [hdrop, ih, hC]
    · have hskip : (removalLevels C (p :: rest)).find?
          (fun u => decide (u.price = pr))
          = (removalLevels C rest).find? (fun u => decide (u.price = pr)) := by
        by_cases hpred : (C.find? fun level =>
            decide (p.price = level.price)).isNone = true
        · have : removalLevels C (p :: rest)
              = ⟨p.price, 0⟩ :: removalLevels C rest := by
            simp [removalLevels, List.filter_cons, hpred]
          rw [this, List.find?_cons]
          simp [hpp]
        · have : removalLevels C (p :: rest) = removalLevels C rest := by
            simp only [removalLevels, List.filter_cons]
            rw [if_neg hpred]
          rw [this]
      rw [hskip, ih, List.find?_cons]
      simp [hpp]

lemma changedLevels_find (C P : List OrderbookLevel) (pr : ℚ)
    (hC : NodupPrices C) :
    (changedLevels C P).find? (fun u => decide (u.price = pr)) =
      match C.find? (fun l => decide (l.price = pr)) with
      | some c =>
        (match P.find? (fun i => decide (i.price = c.price)) with
         | some p => if p.size = c.size then none else some c
         | none => some c)
      | none => none := by
  induction C with
  | nil => simp [changedLevels]
  | cons c0 rest ih =>
    have hhead : ∀ y ∈ rest, c0.price ≠ y.price := (List.pairwise_cons.mp hC).1
    have hrest : NodupPrices rest := (List.pairwise_cons.mp hC).2
    by_cases hc0 : c0.price = pr
    · have hCf : (c0 :: rest).find? (fun l => decide (l.price = pr)) = some c0 := by
        rw [List.find?_cons, decide_eq_true hc0]
      have hrestnone : rest.find? (fun v => decide (v.price = pr)) = none := by
        rw [List.find?_eq_none]
        intro x hx
        simp only [decide_eq_true_eq]
        intro hh
        exact hhead x hx (hh.trans hc0.symm).symm
      cases hPf : P.find? (fun i => decide (i.price = c0.price)) with
      | some p =>
        by_cases hsz : p.size = c0.size
        · have hdrop : changedLevels (c0 :: rest) P = changedLevels rest P := by
            simp [changedLevels, List.filter_cons, hPf, hsz]
          rw [hdrop, ih hrest]
          simp [hCf, hPf, hsz, hrestnone]
        · have hkeep : changedLevels (c0 :: rest) P
              = c0 :: changedLevels rest P := by
            simp [changedLevels, List.filter_cons, hPf, hsz]
          rw [hkeep, List.find?_cons, decide_eq_true hc0]
          simp [hCf, hPf, hsz]
      | none =>
        have hkeep : changedLevels (c0 :: rest) P
            = c0 :: changedLevels rest P := by
          simp [changedLevels, List.filter_cons, hPf]
        rw [hkeep, List.find?_cons, decide_eq_true hc0]
        simp [hCf, hPf]
    · have hCf : (c0 :: rest).find? (fun l => decide (l.price = pr))
          = rest.find? (fun l => decide (l.price = pr)) := by
        rw [List.find?_cons, decide_eq_false hc0]
      rw [hCf, ← ih hrest]
      rcases hpredval : (match P.find? fun i => decide (i.price = c0.price) with
          | some previous_order => decide (previous_order.size ≠ c0.size)
          | none => true) with _ | _
      · have hdrop : changedLevels (c0 :: rest) P = changedLevels rest P := by
          simp only [changedLevels, List.filter_cons]
          rw [hpredval]
          simp
        rw [hdrop]
      · have hkeep : changedLevels (c0 :: rest) P
            = c0 :: changedLevels rest P := by
          simp only [changedLevels, List.filter_cons]
          rw [hpredval]
          simp [changedLevels]
        rw [hkeep, List.find?_cons, decide_eq_false hc0]

lemma nodupPrices_updateDiff (C P : List OrderbookLevel)
    (hP : NodupPrices P) (hC : NodupPrices C) :
    NodupPrices (updateDiff C P) := by
  unfold updateDiff NodupPrices
  rw [List.pairwise_append]
  refine ⟨?_, ?_, ?_⟩
  · unfold removalLevels
    rw [List.pairwise_map]
    exact List.Pairwise.filter _ hP
  · exact List.Pairwise.filter _ hC
  · intro a ha b hb
    unfold removalLevels at ha
    obtain ⟨p, hpmem, hpeq⟩ := List.mem_map.mp ha
    rw [List.mem_filter] at hpmem
    obtain ⟨_, hpred⟩ := hpmem
    unfold changedLevels at hb
    have hbC : b ∈ C := (List.mem_filter.mp hb).1
    rw [Option.isNone_iff_eq_none, List.find?_eq_none] at hpred
    intro heq
    apply hpred b hbC
    have hap : a.price = p.price := by
      rw [← hpeq]
    simp only [decide_eq_true_eq]
    rw [← hap, heq]

lemma find?_price_self (ls : List OrderbookLevel) (l : OrderbookLevel)
    (hN : NodupPrices ls) (hmem : l ∈ ls) :
    ls.find? (fun e => decide (e.price = l.price)) = some l := by
  induction ls with
  | nil => cases hmem
  | cons x rest ih =>
    rcases List.mem_cons.mp hmem with rfl | hmem2
    · rw [List.find?_cons, decide_eq_true rfl]
    · have hx : x.price ≠ l.price := (List.pairwise_cons.mp hN).1 l hmem2
      rw [List.find?_cons, decide_eq_false hx]
      exact ih (List.pairwise_cons.mp hN).2 hmem2

lemma mem_iff_sizeAt (ls : List OrderbookLevel) (hN : NodupPrices ls)
    (l : OrderbookLevel) :
    l ∈ ls ↔ sizeAt ls l.price = some l.size := by
  constructor
  · intro h
    unfold sizeAt
    rw [find?_price_self ls l hN h]
    rfl
  · intro h
    unfold sizeAt at h
    cases hr : ls.find? (fun e => decide (e.price = l.price)) with
    | none => rw [hr] at h; cases h
    | some e =>
      rw [hr] at h
      have hmem := List.mem_of_find?_eq_some hr
      have hpr : e.price = l.price := by simpa using List.find?_some hr
      have hsz : e.size = l.size := by simpa using h
      have heq : e = l := OrderbookLevel.ext hpr hsz
      rwa [← heq]

lemma nodupPrices_upsertLevel (ls : List OrderbookLevel) (u : OrderbookLevel)
    (h : NodupPrices ls) : NodupPrices (upsertLevel ls u) := by
  unfold upsertLevel
  by_cases hany : ls.any (fun l => decide (l.price = u.price)) = true
  · rw [if_pos hany]
    unfold NodupPrices
    rw [List.pairwise_map]
    refine h.imp ?_
    intro a b hab
    by_cases ha : a.price = u.price
    · by_cases hb : b.price = u.price
      · exact absurd (ha.trans hb.symm) hab
      · simp only [if_pos ha, if_neg hb]
        rw [← ha]
        exact hab
    · by_cases hb : b.price = u.price
      · simp only [if_neg ha, if_pos hb]
        rw [← hb]
        exact hab
      · simp only [if_neg ha, if_neg hb]
        exact hab
  · rw [if_neg hany]
    unfold NodupPrices
    rw [List.pairwise_append]
    refine ⟨h, List.pairwise_singleton _ _, ?_⟩
    intro a ha b hb
    rw [List.mem_singleton] at hb
    subst hb
    have hf := List.any_eq_false.mp (Bool.eq_false_iff.mpr hany) a ha
    simpa using hf

lemma nodupPrices_applyUpdate (U P : List OrderbookLevel)
    (h : NodupPrices P) : NodupPrices (applyUpdate P U) := by
  induction U generalizing P with
  | nil => exact h
  | cons u rest ih =>
    have hstep : applyUpdate P (u :: rest)
        = applyUpdate (if u.size = 0 then removeLevel P u.price
            else upsertLevel P u) rest := rfl
    rw [hstep]
    apply ih
    by_cases hz : u.size = 0
    · rw [if_pos hz]
      exact List.Pairwise.filter _ h
    · rw [if_neg hz]
      exact nodupPrices_upsertLevel _ _ h

lemma sizeAt_apply_updateDiff (P C : List OrderbookLevel)
    (hP : NodupPrices P) (hC : NodupPrices C)
    (hsz : ∀ c ∈ C, c.size ≠ 0) (pr : ℚ) :
    sizeAt (applyUpdate P (updateDiff C P)) pr = sizeAt C pr := by
  rw [sizeAt_applyUpdate _ _ _ (nodupPrices_updateDiff C P hP hC)]
  rw [show (updateDiff C P).find? (fun u => decide (u.price = pr))
      = ((removalLevels C P).find? (fun u => decide (u.price = pr))).or
        ((changedLevels C P).find? (fun u => decide (u.price = pr))) from
    List.find?_append]
  rw [removalLevels_find, changedLevels_find _ _ _ hC]
  cases hCf : C.find? (fun l => decide (l.price = pr)) with
  | none =>
    cases hPf : P.find? (fun l => decide (l.price = pr)) with
    | some p =>
      simp [sizeAt, hCf]
    | none =>
      simp [sizeAt, hCf, hPf]
  | some c =>
    have hcpr : c.price = pr := by simpa using List.find?_some hCf
    have hc0 : c.size ≠ 0 := hsz c (List.mem_of_find?_eq_some hCf)
    simp only [hcpr]
    cases hPf : P.find? (fun i => decide (i.price = pr)) with
    | some p =>
      by_cases hpsz : p.size = c.size
      · simp [sizeAt, hCf, hPf, hpsz]
      · simp [sizeAt, hCf, hPf, hpsz, hc0]
    | none =>
      simp [sizeAt, hCf, hPf, hc0]

lemma not_mem_updateDiff (C P : List OrderbookLevel) (hP : NodupPrices P)
    (l : OrderbookLevel) (hlP : l ∈ P) (hlC : l ∈ C) :
    l ∉ updateDiff C P := by
  intro hmem
  rw [updateDiff, List.mem_append] at hmem
  rcases hmem with hrem | hch
  · unfold removalLevels at hrem
    obtain ⟨p, hpmem, hpeq⟩ := List.mem_map.mp hrem
    rw [List.mem_filter] at hpmem
    obtain ⟨_, hpred⟩ := hpmem
    rw [Option.isNone_iff_eq_none, List.find?_eq_none] at hpred
    apply hpred l hlC
    have : p.price = l.price := by
      rw [← hpeq]
    simp [this]
  · unfold changedLevels at hch
    rw [List.mem_filter] at hch
    obtain ⟨_, hpred⟩ := hch
    rw [find?_price_self P l hP hlP] at hpred
    simp at hpred

lemma nodup_of_nodupPrices (ls : List OrderbookLevel)
    (h : NodupPrices ls) : ls.Nodup :=
  h.imp fun hab heq => hab (by rw [heq])

/-- C1. Diff correctness of `publish_changes`: for book level lists `P`
(previous) and `C` (current) — books have pairwise distinct prices, and real
book levels have nonzero sizes — the emitted update `U = updateDiff C P`
satisfies: applying `U` to `P` per the spec (size-0 levels remove their
price, all others upsert) yields exactly `C` (as a permutation); `U` is the
removal levels (all of size 0) followed by the new/changed levels (all drawn
from `C`); and a level present in both `P` and `C` with equal size is
omitted from `U`. -/
theorem c1_diff_correctness (P C : List OrderbookLevel)
    (hP : NodupPrices P) (hC : NodupPrices C)
    (hsz : ∀ c ∈ C, c.size ≠ 0) :
    (applyUpdate P (updateDiff C P)).Perm C ∧
    updateDiff C P = removalLevels C P ++ changedLevels C P ∧
    (∀ r ∈ removalLevels C P, r.size = 0) ∧
    (∀ d ∈ changedLevels C P, d ∈ C) ∧
    (∀ l, l ∈ P → l ∈ C → l ∉ updateDiff C P) := by
  refine ⟨?_, rfl, ?_, ?_, not_mem_updateDiff C P hP⟩
  · rw [List.perm_ext_iff_of_nodup
      (nodup_of_nodupPrices _ (nodupPrices_applyUpdate _ _ hP))
      (nodup_of_nodupPrices _ hC)]
    intro a
    rw [mem_iff_sizeAt _ (nodupPrices_applyUpdate _ _ hP) a,
      mem_iff_sizeAt _ hC a, sizeAt_apply_updateDiff P C hP hC hsz]
  · intro r hr
    unfold removalLevels at hr
    obtain ⟨p, _, hpeq⟩ := List.mem_map.mp hr
    rw [← hpeq]
  · intro d hd
    exact (List.mem_filter.mp hd).1

/-- Witness for C1 at the spec's worked example: previous bids
`[(100, 5), (101, 3)]`, current `[(100, 5), (102, 2)]`, expected update
`[(101, 0), (102, 2)]`. -/
theorem c1_diff_correctness_witness :
    NodupPrices [⟨100, 5⟩, ⟨101, 3⟩] ∧
    NodupPrices [⟨100, 5⟩, ⟨102, 2⟩] ∧
    (∀ c ∈ ([⟨100, 5⟩, ⟨102, 2⟩] : List OrderbookLevel), c.size ≠ 0) ∧
    updateDiff [⟨100, 5⟩, ⟨102, 2⟩] [⟨100, 5⟩, ⟨101, 3⟩]
      = [⟨101, 0⟩, ⟨102, 2⟩] ∧
    ((applyUpdate [⟨100, 5⟩, ⟨101, 3⟩]
        (updateDiff [⟨100, 5⟩, ⟨102, 2⟩] [⟨100, 5⟩, ⟨101, 3⟩])).Perm
      [⟨100, 5⟩, ⟨102, 2⟩] ∧
    updateDiff [⟨100, 5⟩, ⟨102, 2⟩] [⟨100, 5⟩, ⟨101, 3⟩]
      = removalLevels [⟨100, 5⟩, ⟨102, 2⟩] [⟨100, 5⟩, ⟨101, 3⟩]
        ++ changedLevels [⟨100, 5⟩, ⟨102, 2⟩] [⟨100, 5⟩, ⟨101, 3⟩] ∧
    (∀ r ∈ removalLevels [⟨100, 5⟩, ⟨102, 2⟩] [⟨100, 5⟩, ⟨101, 3⟩],
      r.size = 0) ∧
    (∀ d ∈ changedLevels [⟨100, 5⟩, ⟨102, 2⟩] [⟨100, 5⟩, ⟨101, 3⟩],
      d ∈ ([⟨100, 5⟩, ⟨102, 2⟩] : List OrderbookLevel)) ∧
    (∀ l, l ∈ ([⟨100, 5⟩, ⟨101, 3⟩] : List OrderbookLevel) →
      l ∈ ([⟨100, 5⟩, ⟨102, 2⟩] : List OrderbookLevel) →
      l ∉ updateDiff [⟨100, 5⟩, ⟨102, 2⟩] [⟨100, 5⟩, ⟨101, 3⟩])) :=
  ⟨by decide, by decide, by decide, by decide,
    c1_diff_correctness [⟨100, 5⟩, ⟨101, 3⟩] [⟨100, 5⟩, ⟨102, 2⟩]
      (by decide) (by decide) (by decide)⟩

/-! ### Polling all-or-nothing (C7) -/

lemma pollOneAddress_spec (env : PollEnv) (min_slot timeout : Nat)
    (a : Pubkey) :
    ∀ fuel k res k2 log,
      pollOneAddress env min_slot timeout a k fuel = some (res, k2, log) →
      (∀ e ∈ log, e.1 = a) ∧
      (res = Except.ok () → ∃ kk, (a, kk) ∈ log ∧ env.elapsed kk ≤ timeout ∧
        ∃ s, env.rpc kk = Except.ok s ∧ min_slot ≤ s) ∧
      (∀ addr m, res = Except.error (PollErr.timeoutWaiting addr m) →
        addr = a ∧ m = min_slot) := by
  intro fuel
  induction fuel with
  | zero =>
    intro k res k2 log h
    cases h
  | succ fuel ih =>
    intro k res k2 log h
    unfold pollOneAddress at h
    by_cases he : env.elapsed k > timeout
    · rw [if_pos he] at h
      simp only [Option.some.injEq, Prod.mk.injEq] at h
      obtain ⟨hres, _, hlog⟩ := h
      subst hres
      subst hlog
      refine ⟨by simp, ?_, ?_⟩
      · intro hok
        cases hok
      · intro addr m heq
        simp only [Except.error.injEq, PollErr.timeoutWaiting.injEq] at heq
        exact ⟨heq.1.symm, heq.2.symm⟩
    · rw [if_neg he] at h
      have hel : env.elapsed k ≤ timeout := Nat.le_of_not_lt he
      cases hrpc : env.rpc k with
      | error e =>
        simp only [hrpc] at h
        simp only [Option.some.injEq, Prod.mk.injEq] at h
        obtain ⟨hres, _, hlog⟩ := h
        subst hres
        subst hlog
        refine ⟨by simp, ?_, ?_⟩
        · intro hok
          cases hok
        · intro addr m heq
          simp at heq
      | ok s =>
        simp only [hrpc] at h
        by_cases hs : min_slot ≤ s
        · rw [if_pos hs] at h
          simp only [Option.some.injEq, Prod.mk.injEq] at h
          obtain ⟨hres, _, hlog⟩ := h
          subst hres
          subst hlog
          refine ⟨by simp, ?_, ?_⟩
          · intro _
            exact ⟨k, by simp, hel, s, hrpc, hs⟩
          · intro addr m heq
            cases heq
        · rw [if_neg hs] at h
          cases hrec : pollOneAddress env min_slot timeout a (k + 1) fuel with
          | none =>
            rw [hrec] at h
            cases h
          | some r =>
            obtain ⟨res1, k21, log1⟩ := r
            rw [hrec] at h
            simp only [Option.some.injEq, Prod.mk.injEq] at h
            obtain ⟨hres, _, hlog⟩ := h
            obtain ⟨hmem, hok, htm⟩ := ih (k + 1) res1 k21 log1 hrec
            subst hres
            subst hlog
            refine ⟨?_, ?_, htm⟩
            · intro e he2
              rcases List.mem_cons.mp he2 with rfl | he3
              · rfl
              · exact hmem e he3
            · intro hres2
              obtain ⟨kk, hkk, rest⟩ := hok hres2
              exact ⟨kk, List.mem_cons_of_mem _ hkk, rest⟩

lemma refresh_until_slot_spec (env : PollEnv) (min_slot timeout fuel : Nat) :
    ∀ (addrs : List Pubkey) (k : Nat) (res : Except PollErr Unit) (k2 : Nat)
      (log : List (Pubkey × Nat)),
      refresh_accounts_via_rpc_until_slot env addrs min_slot timeout fuel k
        = some (res, k2, log) →
      (res = Except.ok () → ∀ b ∈ addrs, ∃ kk, (b, kk) ∈ log ∧
        env.elapsed kk ≤ timeout ∧
        ∃ s, env.rpc kk = Except.ok s ∧ min_slot ≤ s) ∧
      (∀ addr m, res = Except.error (PollErr.timeoutWaiting addr m) →
        m = min_slot ∧ ∃ pre post, addrs = pre ++ addr :: post ∧
          ∀ e ∈ log, e.1 ∈ pre ++ [addr]) := by
  intro addrs
  induction addrs with
  | nil =>
    intro k res k2 log h
    simp only [refresh_accounts_via_rpc_until_slot, Option.some.injEq,
      Prod.mk.injEq] at h
    obtain ⟨hres, _, hlog⟩ := h
    subst hres
    subst hlog
    refine ⟨by simp, ?_⟩
    intro addr m heq
    cases heq
  | cons a rest ih =>
    intro k res k2 log h
    unfold refresh_accounts_via_rpc_until_slot at h
    cases hpoll : pollOneAddress env min_slot timeout a k fuel with
    | none =>
      rw [hpoll] at h
      cases h
    | some r =>
      obtain ⟨res1, k21, log1⟩ := r
      obtain ⟨hmem1, hok1, htm1⟩ :=
        pollOneAddress_spec env min_slot timeout a fuel k res1 k21 log1 hpoll
      rw [hpoll] at h
      cases res1 with
      | error e =>
        simp only [Option.some.injEq, Prod.mk.injEq] at h
        obtain ⟨hres, _, hlog⟩ := h
        subst hres
        subst hlog
        constructor
        · intro hok
          cases hok
        · intro addr m heq
          simp only [Except.error.injEq] at heq
          obtain ⟨haddr, hm⟩ := htm1 addr m (by rw [heq])
          subst haddr
          exact ⟨hm, [], rest, rfl, fun e he => by simp [hmem1 e he]⟩
      | ok u =>
        have h2 : (match refresh_accounts_via_rpc_until_slot env rest min_slot
              timeout fuel k21 with
            | none => none
            | some (r, k3, log2) => some (r, k3, log1 ++ log2))
            = some (res, k2, log) := h
        cases hrec : refresh_accounts_via_rpc_until_slot env rest min_slot
            timeout fuel k21 with
        | none =>
          rw [hrec] at h2
          cases h2
        | some r2 =>
          obtain ⟨res2, k22, log2⟩ := r2
          rw [hrec] at h2
          simp only [Option.some.injEq, Prod.mk.injEq] at h2
          obtain ⟨hres, _, hlog⟩ := h2
          obtain ⟨hok2, htm2⟩ := ih k21 res2 k22 log2 hrec
          subst hres
          subst hlog
          constructor
          · intro hres2 b hb
            rcases List.mem_cons.mp hb with rfl | hb2
            · obtain ⟨kk, hkk, rest2⟩ := hok1 rfl
              exact ⟨kk, List.mem_append_left _ hkk, rest2⟩
            · obtain ⟨kk, hkk, rest2⟩ := hok2 hres2 b hb2
              exact ⟨kk, List.mem_append_right _ hkk, rest2⟩
          · intro addr m heq
            obtain ⟨hm, pre, post, hsplit, hlog2⟩ := htm2 addr m heq
            refine ⟨hm, a :: pre, post, by rw [hsplit, List.cons_append], ?_⟩
            intro e he2
            rcases List.mem_append.mp he2 with h1 | h2
            · rw [List.cons_append, List.mem_cons]
              exact Or.inl (hmem1 e h1)
            · rw [List.cons_append, List.mem_cons]
              exact Or.inr (hlog2 e h2)

/-- C7. `refresh_accounts_via_rpc_until_slot` succeeds only if every address
in the list was observed via RPC at a slot at least `min_slot` within the
shared wall-clock budget; when it fails with a Timeout error the error names
`min_slot` and an offending address from the list, and no address after the
offending one was ever attempted — all-or-nothing, no partial success. -/
theorem c7_polling_all_or_nothing (env : PollEnv) (addrs : List Pubkey)
    (min_slot timeout fuel k : Nat) (res : Except PollErr Unit) (k2 : Nat)
    (log : List (Pubkey × Nat))
    (h : refresh_accounts_via_rpc_until_slot env addrs min_slot timeout fuel k
      = some (res, k2, log)) :
    (res = Except.ok () → ∀ b ∈ addrs, ∃ kk, (b, kk) ∈ log ∧
      env.elapsed kk ≤ timeout ∧
      ∃ s, env.rpc kk = Except.ok s ∧ min_slot ≤ s) ∧
    (∀ addr m, res = Except.error (PollErr.timeoutWaiting addr m) →
      m = min_slot ∧ ∃ pre post, addrs = pre ++ addr :: post ∧
        ∀ e ∈ log, e.1 ∈ pre ++ [addr]) :=
  refresh_until_slot_spec env min_slot timeout fuel addrs k res k2 log h

/-- Witness for C7 at concrete inputs. -/
theorem c7_polling_all_or_nothing_witness :
    ((Except.ok () : Except PollErr Unit) = Except.ok () →
      ∀ b ∈ [3, 4], ∃ kk, (b, kk) ∈ [(3, 0), (4, 1)] ∧
        pollEnvW.elapsed kk ≤ 10 ∧
        ∃ s, pollEnvW.rpc kk = Except.ok s ∧ 50 ≤ s) ∧
    (∀ addr m, (Except.ok () : Except PollErr Unit)
        = Except.error (PollErr.timeoutWaiting addr m) →
      m = 50 ∧ ∃ pre post, [3, 4] = pre ++ addr :: post ∧
        ∀ e ∈ [(3, 0), (4, 1)], e.1 ∈ pre ++ [addr]) :=
  c7_polling_all_or_nothing pollEnvW [3, 4] 50 10 2 0 (Except.ok ()) 2
    [(3, 0), (4, 1)] (by rfl)

end MangoFeeds
